import Mathlib

/-!
Verification of the compiler-configuration core of vscode-mozillacpp
(`src/compiler.ts`), shallowly embedded in Lean 4.

JavaScript strings are modelled as Lean `String`s and all character-level
operations are carried out on `String.data` (the underlying `List Char`);
the sources only manipulate ASCII, so JS UTF-16 index arithmetic and Lean
character lists agree on every input that matters here.  A JS `Set<string>`
is modelled as an insertion-ordered duplicate-free `List String`
(insertion `setAdd` appends only when absent), and a JS `Map<string, T>`
as an association list whose `mapSet` updates the first matching key in
place (keeping its position, as `Map.set` does) and otherwise appends.
`undefined`-able values become `Option`, and functions that `throw`
become `Except String`.
-/

/-! ## JS-style string primitives -/

/-- JavaScript `text.indexOf(pat)`: index of the first occurrence of `pat`
in `text`, as an `Option` instead of `-1`. -/
def listIndexOf (pat : List Char) : List Char → Option Nat
  | [] => if pat.isPrefixOf ([] : List Char) then some 0 else none
  | c :: rest =>
    if pat.isPrefixOf (c :: rest) then some 0
    else (listIndexOf pat rest).map (· + 1)

/-- String-level wrapper for `listIndexOf`, argument order as in JS
`s.indexOf(pat)`. -/
def strIndexOf (s pat : String) : Option Nat :=
  listIndexOf pat.data s.data

/-- Substring containment, via `strIndexOf`. -/
def strContains (s pat : String) : Bool :=
  (strIndexOf s pat).isSome

/-- JavaScript `s.substring(n)` / Lean-style drop of `n` characters. -/
def strDrop (s : String) (n : Nat) : String :=
  String.mk (s.data.drop n)

/-- JavaScript `s.substring(0, n)`: the first `n` characters. -/
def strTake (s : String) (n : Nat) : String :=
  String.mk (s.data.take n)

/-- JavaScript `s.startsWith(p)`. -/
def strStartsWith (s p : String) : Bool :=
  p.data.isPrefixOf s.data

/-- JavaScript `s.endsWith(p)`. -/
def strEndsWith (s p : String) : Bool :=
  p.data.isSuffixOf s.data

/-- JavaScript `s.trim()`: strip whitespace from both ends. -/
def jsTrim (s : String) : String :=
  String.mk (((s.data.dropWhile Char.isWhitespace).reverse.dropWhile Char.isWhitespace).reverse)

/-- Split a character list at newline characters, as JS `s.split('\n')`
does (keeping empty pieces). `acc` holds the current piece reversed. -/
def splitLinesAux : List Char → List Char → List (List Char)
  | acc, [] => [acc.reverse]
  | acc, c :: rest =>
    if c = '\n' then acc.reverse :: splitLinesAux [] rest
    else splitLinesAux (c :: acc) rest

/-- JavaScript `s.split('\n')`. -/
def strLines (s : String) : List String :=
  (splitLinesAux [] s.data).map String.mk

/-! ## Data model (`compiler.ts` lines 10-61) -/

/-- The `VERSIONS` union type of `compiler.ts`. -/
inductive Versions
  | c89 | c99 | c11 | cpp98 | cpp03 | cpp11 | cpp14 | cpp17
deriving DecidableEq

/-- The `INTELLISENSE_MODES` union type of `compiler.ts`. -/
inductive IntelliSenseMode
  | msvc_x64 | gcc_x64 | clang_x64
deriving DecidableEq

/-- `const FRAMEWORK_MARKER: string = ' (framework directory)'`. -/
def FRAMEWORK_MARKER : String := " (framework directory)"

/-- `const CPP_STANDARD: VERSIONS = 'c++14'`. -/
def CPP_STANDARD : Versions := Versions.cpp14

/-- `const C_STANDARD: VERSIONS = 'c99'`. -/
def C_STANDARD : Versions := Versions.c99

/-- The `FileType` enum of `compiler.ts`. -/
inductive FileType
  | C | CPP
deriving DecidableEq

/-- The `Define` interface: one preprocessor macro definition. -/
structure Define where
  key : String
  value : String
deriving DecidableEq

/-- `buildDefine(text, splitter)` from `compiler.ts` lines 30-43:
split `text` at the first occurrence of `splitter` into key and value
(the value starts one character after the found position, as in the
source's `substring(pos + 1)`); if the splitter does not occur, the key
is the whole text and the value is the literal `"1"`. -/
def buildDefine (text splitter : String) : Define :=
  match listIndexOf splitter.data text.data with
  | some pos => { key := String.mk (text.data.take pos), value := String.mk (text.data.drop (pos + 1)) }
  | none => { key := text, value := "1" }

/-- JS `Set<string>`-style insertion: append only when absent. -/
def setAdd (s : List String) (x : String) : List String :=
  if x ∈ s then s else s ++ [x]

/-- JS `Map.set`-style insertion: overwrite the first occurrence of the
key in place, otherwise append at the end. -/
def mapSet : List (String × Define) → String → Define → List (String × Define)
  | [], k, v => [(k, v)]
  | (k', v') :: rest, k, v =>
    if k' = k then (k, v) :: rest else (k', v') :: mapSet rest k v

/-- The keys of an association list, in order. -/
def keysOf (m : List (String × Define)) : List String :=
  m.map Prod.fst

/-- JS `Map.get`: value at the first occurrence of a key. -/
def lookupD (k : String) : List (String × Define) → Option Define
  | [] => none
  | (k', v) :: rest => if k' = k then some v else lookupD k rest

/-- The `CompileConfig` interface of `compiler.ts`. -/
structure CompileConfig where
  includes : List String
  defines : List (String × Define)
  forcedIncludes : List String
  intelliSenseMode : IntelliSenseMode
  standard : Versions
deriving DecidableEq

/-! ## Argument tokenizer (`splitCmdLine` from `shared.ts`) -/

/-- Quoting state of the tokenizer: outside quotes, inside single quotes,
or inside double quotes. -/
inductive QMode
  | noq | inSingle | inDouble
deriving DecidableEq

/-- The single-quote character, written by code point. -/
def squote : Char := Char.ofNat 39

/-- Modelled from the spec: `splitCmdLine` is imported from `shared.ts`,
which is not part of the sources here; spec section 4.1 describes it as a
shell-style tokenizer producing "an ordered sequence of argument tokens
equivalent to what a POSIX-like shell would pass to a process", handling
whitespace-separated tokens, single- and double-quoted substrings (quotes
consumed, not part of the token), escaped characters inside and outside
quotes, with best-effort recovery for malformed trailing quotes (the
remainder becomes a terminated token).  `cur` is the token being built
(reversed), `none` when no token has started; a quote starts a token even
when it contributes no characters, so `''` yields an empty token as a
POSIX shell would. -/
def tokenizeAux : QMode → Option (List Char) → List Char → List (List Char)
  | _, some acc, [] => [acc.reverse]
  | _, none, [] => []
  | QMode.noq, cur, c :: rest =>
    if c.isWhitespace then
      match cur with
      | some acc => acc.reverse :: tokenizeAux QMode.noq none rest
      | none => tokenizeAux QMode.noq none rest
    else if c = squote then tokenizeAux QMode.inSingle (some (cur.getD [])) rest
    else if c = '"' then tokenizeAux QMode.inDouble (some (cur.getD [])) rest
    else if c = '\\' then
      match rest with
      | [] =>
        match cur with
        | some acc => [acc.reverse]
        | none => []
      | d :: rest' => tokenizeAux QMode.noq (some (d :: cur.getD [])) rest'
    else tokenizeAux QMode.noq (some (c :: cur.getD [])) rest
  | QMode.inSingle, cur, c :: rest =>
    if c = squote then tokenizeAux QMode.noq cur rest
    else tokenizeAux QMode.inSingle (some (c :: cur.getD [])) rest
  | QMode.inDouble, cur, c :: rest =>
    if c = '"' then tokenizeAux QMode.noq cur rest
    else if c = '\\' then
      match rest with
      | [] =>
        match cur with
        | some acc => [acc.reverse]
        | none => []
      | d :: rest' => tokenizeAux QMode.inDouble (some (d :: cur.getD [])) rest'
    else tokenizeAux QMode.inDouble (some (c :: cur.getD [])) rest

/-- Modelled from the spec: the `splitCmdLine` entry point (spec 4.1).
Empty input yields an empty token sequence. -/
def splitCmdLine (s : String) : List String :=
  (tokenizeAux QMode.noq none s.data).map String.mk

/-! ## Override parser (`addCompilerArgumentsToConfig`, lines 63-93) -/

/-- How the loop body of `addCompilerArgumentsToConfig` treats one token:
`empty` is a falsy token, which ends the `while (arg = args.shift())`
loop; `skip` is a token that is too short, does not look like a flag, or
is an unrecognized flag; `defineArg`/`includeArg` are `-D`/`-I`-style
flags whose remainder after the two-character prefix is used; `forceArg`
is a token equal to the injected forced-include flag spelling. -/
inductive ArgKind
  | empty
  | skip
  | defineArg
  | includeArg
  | forceArg
deriving DecidableEq

/-- Token classification following the source order: the
`arg.length < 2 || (charAt(0) !== '-' && charAt(0) !== '/')` guard, the
`switch (arg.charAt(1))` on `'D'`/`'I'`, then `arg === forceIncludeArg`. -/
def classifyArg (forceIncludeArg arg : String) : ArgKind :=
  match arg.data with
  | [] => ArgKind.empty
  | [_] => ArgKind.skip
  | c0 :: c1 :: _ =>
    if c0 ≠ '-' ∧ c0 ≠ '/' then ArgKind.skip
    else if c1 = 'D' then ArgKind.defineArg
    else if c1 = 'I' then ArgKind.includeArg
    else if arg = forceIncludeArg then ArgKind.forceArg
    else ArgKind.skip

/-- The token-consuming loop of `addCompilerArgumentsToConfig`.  A falsy
(empty) token stops the loop; `-D`/`-I` flags use the remainder after the
two-character prefix (`arg.substring(2)`); a `forceArg` token consumes
the next token and records it only when it is truthy (non-empty), as in
`let include = args.shift(); if (include) { ... }`. -/
def processArgs (forceIncludeArg : String) : List String → CompileConfig → CompileConfig
  | [], config => config
  | arg :: args, config =>
    if classifyArg forceIncludeArg arg = ArgKind.empty then config
    else if classifyArg forceIncludeArg arg = ArgKind.defineArg then
      processArgs forceIncludeArg args
        { config with
            defines := mapSet config.defines (buildDefine (strDrop arg 2) "=").key (buildDefine (strDrop arg 2) "=") }
    else if classifyArg forceIncludeArg arg = ArgKind.includeArg then
      processArgs forceIncludeArg args { config with includes := setAdd config.includes (strDrop arg 2) }
    else if classifyArg forceIncludeArg arg = ArgKind.forceArg then
      match args with
      | [] => config
      | inc :: rest =>
        if inc = "" then processArgs forceIncludeArg rest config
        else processArgs forceIncludeArg rest { config with forcedIncludes := setAdd config.forcedIncludes inc }
    else processArgs forceIncludeArg args config

/-- `addCompilerArgumentsToConfig(cmdLine, forceIncludeArg, config)`:
returns the mutated config; `if (!cmdLine) return` makes both an absent
and an empty command line a no-op. -/
def addCompilerArgumentsToConfig (cmdLine : Option String) (forceIncludeArg : String) (config : CompileConfig) : CompileConfig :=
  match cmdLine with
  | none => config
  | some s => if s = "" then config else processArgs forceIncludeArg (splitCmdLine s) config

/-- The method `ClangCompiler.addCompilerArgumentsToConfig`: delegates to
the free function with the `-include` forced-include flag spelling bound
in (named `clangAddCompilerArguments` here only to avoid shadowing the
free function). -/
def clangAddCompilerArguments (cmdLine : Option String) (config : CompileConfig) : CompileConfig :=
  addCompilerArgumentsToConfig cmdLine "-include" config

/-- The method `MsvcCompiler.addCompilerArgumentsToConfig`: delegates to
the free function with the `-FI` forced-include flag spelling bound in. -/
def msvcAddCompilerArguments (cmdLine : Option String) (config : CompileConfig) : CompileConfig :=
  addCompilerArgumentsToConfig cmdLine "-FI" config

/-! ## Diagnostic-output parser (`ClangCompiler.parseCompilerDefaults`) -/

/-- The line loop of `ClangCompiler.parseCompilerDefaults` (lines
164-190), with the mutable `inIncludes` flag made explicit.  While inside
the include listing, a line whose first character is a space is trimmed,
has the framework marker suffix stripped via `substring(0, length -
marker.length)` when present, and is added to the includes set; any other
line leaves the listing and falls through to the `#include `/`#define `
checks, which are also what lines outside the listing are matched
against. -/
def parseDefaultsLines : Bool → List String → CompileConfig → CompileConfig
  | _, [], defaults => defaults
  | inIncludes, line :: rest, defaults =>
    if inIncludes = true ∧ line.data.head? = some ' ' then
      let inc := jsTrim line
      if strEndsWith inc FRAMEWORK_MARKER then
        parseDefaultsLines true rest
          { defaults with includes := setAdd defaults.includes (strTake inc (inc.data.length - FRAMEWORK_MARKER.data.length)) }
      else
        parseDefaultsLines true rest { defaults with includes := setAdd defaults.includes inc }
    else
      if strStartsWith line "#include " then parseDefaultsLines true rest defaults
      else if strStartsWith line "#define " then
        let d := buildDefine (jsTrim (strDrop line 8)) " "
        parseDefaultsLines false rest { defaults with defines := mapSet defaults.defines d.key d }
      else parseDefaultsLines false rest defaults

/-- `ClangCompiler.parseCompilerDefaults(output, defaults)`: trim the
whole output, split it into lines, and run the two-state line scan. -/
def ClangCompiler.parseCompilerDefaults (output : String) (defaults : CompileConfig) : CompileConfig :=
  parseDefaultsLines false (strLines (jsTrim output)) defaults

/-- The include-listing entry a line contributes, in the words of the
spec: trim the line; if it ends with the framework marker, strip that
suffix before adding. -/
def specIncludeEntry (line : String) : String :=
  let t := jsTrim line
  if strEndsWith t FRAMEWORK_MARKER then strTake t (t.data.length - FRAMEWORK_MARKER.data.length)
  else t

/-- The rules the spec states for a line seen outside the include
listing: a line starting with `"#include "` enters the listing; a line
starting with `"#define "` is stripped of the prefix, trimmed, built
into a `Define` with a single space as splitter and inserted into the
defines map; every other line changes nothing.  Returns the new
inside-the-listing state and the updated config. -/
def specLineRules (line : String) (cfg : CompileConfig) : Bool × CompileConfig :=
  if strStartsWith line "#include " then (true, cfg)
  else if strStartsWith line "#define " then
    let d := buildDefine (jsTrim (strDrop line 8)) " "
    (false, { cfg with defines := mapSet cfg.defines d.key d })
  else (false, cfg)

/-- The two-state scan exactly as claim C1 words it: while inside the
listing, a line beginning with a space is an include entry; a line not
beginning with a space exits the listing and is re-evaluated against the
normal rules; outside the listing, the normal rules apply. -/
def specScanLines : Bool → List String → CompileConfig → CompileConfig
  | _, [], cfg => cfg
  | true, line :: rest, cfg =>
    if line.data.take 1 = [' '] then
      specScanLines true rest { cfg with includes := setAdd cfg.includes (specIncludeEntry line) }
    else
      specScanLines (specLineRules line cfg).1 rest (specLineRules line cfg).2
  | false, line :: rest, cfg =>
    specScanLines (specLineRules line cfg).1 rest (specLineRules line cfg).2

/-- The spec-worded counterpart of `ClangCompiler.parseCompilerDefaults`,
sharing only the trim-and-split framing. -/
def specParseCompilerDefaults (output : String) (defaults : CompileConfig) : CompileConfig :=
  specScanLines false (strLines (jsTrim output)) defaults

/-! ## Probe strategies and factory (`compiler.ts` lines 121-276) -/

/-- The fresh defaults `ClangCompiler.fetch` builds before parsing the
probe output (lines 220-226). -/
def clangFreshDefaults (type : FileType) : CompileConfig :=
  { includes := []
    defines := []
    forcedIncludes := []
    intelliSenseMode := IntelliSenseMode.clang_x64
    standard := if type = FileType.C then C_STANDARD else CPP_STANDARD }

/-- The accumulated configuration after `ClangCompiler.fetch` parses the
captured stdout and then the captured stderr into the fresh defaults
(lines 228-229). -/
def probeParse (type : FileType) (stdout stderr : String) : CompileConfig :=
  ClangCompiler.parseCompilerDefaults stderr (ClangCompiler.parseCompilerDefaults stdout (clangFreshDefaults type))

/-- The pure tail of `ClangCompiler.fetch` (lines 217-239): the external
process is modelled as an injected capability, so the captured stdout and
stderr texts are parameters; the parsed result is checked for emptiness
and either rejected with the source's error message or returned. -/
def ClangCompiler.fetchFromOutput (type : FileType) (stdout stderr : String) : Except String CompileConfig :=
  let defaults := probeParse type stdout stderr
  if defaults.includes.length = 0 ∨ defaults.defines.length = 0 then
    Except.error "Compiler returned empty includes or defined."
  else Except.ok defaults

/-- `MsvcCompiler.fetch` (lines 258-272): builds empty defaults with the
ABI mode chosen from the family variant, then performs the same emptiness
check on the just-built containers.  `srcdir` and `command` are carried
only to quantify over every input; they do not influence the result. -/
def MsvcCompiler.fetch (_srcdir : String) (_command : List String) (type : FileType) (compilerType : String) : Except String CompileConfig :=
  let defaults : CompileConfig :=
    { includes := []
      defines := []
      forcedIncludes := []
      intelliSenseMode := if compilerType = "msvc" then IntelliSenseMode.msvc_x64 else IntelliSenseMode.clang_x64
      standard := if type = FileType.C then C_STANDARD else CPP_STANDARD }
  if defaults.includes.length = 0 ∨ defaults.defines.length = 0 then
    Except.error "Compiler returned empty includes or defined."
  else Except.ok defaults

/-- Which probe strategy `Compiler.create` dispatches to. -/
inductive Strategy
  | probing
  | staticStrategy (variant : String)
deriving DecidableEq

/-- JS `Map<string, string>.get` for the build configuration. -/
def lookupStr (k : String) : List (String × String) → Option String
  | [] => none
  | (k', v) :: rest => if k' = k then some v else lookupStr k rest

/-- The dispatch performed by `Compiler.create` (lines 121-136): read
`CC_TYPE` from the build configuration (a falsy value — absent or empty —
fails), send `'clang'` to the probing strategy, `'clang-cl'` and `'msvc'`
to the static strategy with the variant passed along, and fail on
anything else with a message naming the identifier.  The strategy's own
`fetch` is modelled separately, so `create` returns the chosen
strategy. -/
def Compiler.create (buildConfig : List (String × String)) : Except String Strategy :=
  match lookupStr "CC_TYPE" buildConfig with
  | none => Except.error "Unable to determine compiler types."
  | some compilerType =>
    if compilerType = "" then Except.error "Unable to determine compiler types."
    else if compilerType = "clang" then Except.ok Strategy.probing
    else if compilerType = "clang-cl" ∨ compilerType = "msvc" then
      Except.ok (Strategy.staticStrategy compilerType)
    else Except.error ("Unknown compiler type " ++ compilerType ++ ".")

/-! ## Reference-semantics model for cloning (`cloneConfig`, lines 53-61)

Claim C7 is about aliasing, so the JS heap is made explicit for it: a
`Heap` stores the set and map containers, and a `ConfigRef` holds the
indices (references) a `CompileConfig` object's fields point at.
`new Set(x)` / `new Map(x)` allocate a fresh container holding a copy of
the referenced contents. -/

/-- Total list indexing with a default, used as heap dereference. -/
def getIdx {α : Type} : List α → Nat → α → α
  | [], _, d => d
  | a :: _, 0, _ => a
  | _ :: t, n + 1, d => getIdx t n d

/-- Replace the element at an index, leaving other positions unchanged. -/
def setIdx {α : Type} : List α → Nat → α → List α
  | [], _, _ => []
  | _ :: t, 0, a => a :: t
  | x :: t, n + 1, a => x :: setIdx t n a

/-- The mutable store holding every live `Set<string>` and
`Map<string, Define>` container. -/
structure Heap where
  sets : List (List String)
  maps : List (List (String × Define))
deriving DecidableEq

/-- A `CompileConfig` value under reference semantics: the three
containers are references into the heap, the two scalar fields are held
directly. -/
structure ConfigRef where
  includesH : Nat
  definesH : Nat
  forcedIncludesH : Nat
  intelliSenseMode : IntelliSenseMode
  standard : Versions
deriving DecidableEq

/-- Dereference a set handle. -/
def Heap.getSet (h : Heap) (i : Nat) : List String :=
  getIdx h.sets i []

/-- Dereference a map handle. -/
def Heap.getMap (h : Heap) (i : Nat) : List (String × Define) :=
  getIdx h.maps i []

/-- Allocate a fresh set container (`new Set(contents)`). -/
def Heap.allocSet (h : Heap) (contents : List String) : Heap × Nat :=
  ({ h with sets := h.sets ++ [contents] }, h.sets.length)

/-- Allocate a fresh map container (`new Map(contents)`). -/
def Heap.allocMap (h : Heap) (contents : List (String × Define)) : Heap × Nat :=
  ({ h with maps := h.maps ++ [contents] }, h.maps.length)

/-- Mutate a set container in place: `set.add(x)`. -/
def Heap.setInsert (h : Heap) (i : Nat) (x : String) : Heap :=
  { h with sets := setIdx h.sets i (setAdd (h.getSet i) x) }

/-- Mutate a map container in place: `map.set(k, v)`. -/
def Heap.mapInsert (h : Heap) (i : Nat) (k : String) (v : Define) : Heap :=
  { h with maps := setIdx h.maps i (mapSet (h.getMap i) k v) }

/-- A reference is valid when all three handles point into the heap. -/
def ConfigRef.valid (c : ConfigRef) (h : Heap) : Prop :=
  c.includesH < h.sets.length ∧ c.forcedIncludesH < h.sets.length ∧ c.definesH < h.maps.length

/-- `cloneConfig(config)` (lines 53-61) under reference semantics:
allocate `new Set(config.includes)`, `new Map(config.defines)` and
`new Set(config.forcedIncludes)` and copy the two scalar fields. -/
def cloneConfig (h : Heap) (c : ConfigRef) : Heap × ConfigRef :=
  let a1 := h.allocSet (h.getSet c.includesH)
  let a2 := a1.1.allocMap (a1.1.getMap c.definesH)
  let a3 := a2.1.allocSet (a2.1.getSet c.forcedIncludesH)
  (a3.1,
    { includesH := a1.2
      definesH := a2.2
      forcedIncludesH := a3.2
      intelliSenseMode := c.intelliSenseMode
      standard := c.standard })

/-- `Compiler.getDefaultConfiguration()` (lines 142-144): returns
`cloneConfig(this.defaults)`. -/
def Compiler.getDefaultConfiguration (h : Heap) (defaults : ConfigRef) : Heap × ConfigRef :=
  cloneConfig h defaults

/-! ## Helpers for the override-parser claims (C2, C8, C9, C10) -/

/-- Fold `setAdd` over a batch of insertions. -/
def setAddAll (s : List String) (xs : List String) : List String :=
  xs.foldl setAdd s

/-- Fold `mapSet` over a batch of insertions. -/
def mapSetAll (m : List (String × Define)) (kvs : List (String × Define)) : List (String × Define) :=
  kvs.foldl (fun acc kv => mapSet acc kv.1 kv.2) m

/-- Left-biased choice on `Option`. -/
def optOr (a b : Option Define) : Option Define :=
  match a with
  | some v => some v
  | none => b

/-- The value the last insertion for a key in a batch carries, if any. -/
def lastVal (k : String) : List (String × Define) → Option Define
  | [] => none
  | (k', v) :: rest => optOr (lastVal k rest) (if k' = k then some v else none)

/-- The include entries a token list makes `processArgs` add, in order. -/
def incDeltas (forceIncludeArg : String) : List String → List String
  | [] => []
  | arg :: args =>
    if classifyArg forceIncludeArg arg = ArgKind.empty then []
    else if classifyArg forceIncludeArg arg = ArgKind.defineArg then incDeltas forceIncludeArg args
    else if classifyArg forceIncludeArg arg = ArgKind.includeArg then
      strDrop arg 2 :: incDeltas forceIncludeArg args
    else if classifyArg forceIncludeArg arg = ArgKind.forceArg then
      match args with
      | [] => []
      | _ :: rest => incDeltas forceIncludeArg rest
    else incDeltas forceIncludeArg args

/-- The define insertions a token list makes `processArgs` perform. -/
def defDeltas (forceIncludeArg : String) : List String → List (String × Define)
  | [] => []
  | arg :: args =>
    if classifyArg forceIncludeArg arg = ArgKind.empty then []
    else if classifyArg forceIncludeArg arg = ArgKind.defineArg then
      ((buildDefine (strDrop arg 2) "=").key, buildDefine (strDrop arg 2) "=") :: defDeltas forceIncludeArg args
    else if classifyArg forceIncludeArg arg = ArgKind.includeArg then defDeltas forceIncludeArg args
    else if classifyArg forceIncludeArg arg = ArgKind.forceArg then
      match args with
      | [] => []
      | _ :: rest => defDeltas forceIncludeArg rest
    else defDeltas forceIncludeArg args

/-- The forced-include entries a token list makes `processArgs` add. -/
def forceDeltas (forceIncludeArg : String) : List String → List String
  | [] => []
  | arg :: args =>
    if classifyArg forceIncludeArg arg = ArgKind.empty then []
    else if classifyArg forceIncludeArg arg = ArgKind.defineArg then forceDeltas forceIncludeArg args
    else if classifyArg forceIncludeArg arg = ArgKind.includeArg then forceDeltas forceIncludeArg args
    else if classifyArg forceIncludeArg arg = ArgKind.forceArg then
      match args with
      | [] => []
      | inc :: rest =>
        if inc = "" then forceDeltas forceIncludeArg rest
        else inc :: forceDeltas forceIncludeArg rest
    else forceDeltas forceIncludeArg args

/-- Whether processing a token list ends with a forced-include flag that
is still waiting for its path argument, so that one extra trailing token
would be consumed as that path rather than processed as a token. -/
def pendingForce (forceIncludeArg : String) : List String → Bool
  | [] => false
  | arg :: args =>
    if classifyArg forceIncludeArg arg = ArgKind.empty then false
    else if classifyArg forceIncludeArg arg = ArgKind.forceArg then
      match args with
      | [] => true
      | _ :: rest => pendingForce forceIncludeArg rest
    else pendingForce forceIncludeArg args

/-- The second character of a token, via the claim's phrase "a flag whose
second character is ..."; only consulted for tokens of length at least
two. -/
def secondCharD (l : List Char) : Char :=
  match l with
  | _ :: c :: _ => c
  | _ => ' '

/-- The per-token rules exactly as claim C2 words them, with no
empty-token special case: a token shorter than two characters or not
starting with `-` or `/` is skipped; a `D`-flag inserts a define built
with `=` as splitter; an `I`-flag adds an include; a token equal to the
forced-include flag consumes the next token and adds it to the forced
includes; every other flag is ignored. -/
def claimProcessArgs (forceIncludeArg : String) : List String → CompileConfig → CompileConfig
  | [], c => c
  | arg :: args, c =>
    if arg.length < 2 ∨ (arg.data.take 1 ≠ ['-'] ∧ arg.data.take 1 ≠ ['/']) then
      claimProcessArgs forceIncludeArg args c
    else if secondCharD arg.data = 'D' then
      let d := buildDefine (strDrop arg 2) "="
      claimProcessArgs forceIncludeArg args { c with defines := mapSet c.defines d.key d }
    else if secondCharD arg.data = 'I' then
      claimProcessArgs forceIncludeArg args { c with includes := setAdd c.includes (strDrop arg 2) }
    else if arg = forceIncludeArg then
      match args with
      | [] => c
      | p :: rest => claimProcessArgs forceIncludeArg rest { c with forcedIncludes := setAdd c.forcedIncludes p }
    else claimProcessArgs forceIncludeArg args c

/-- Claim C2's reading of the whole call: tokenize, then process every
token by the claimed rules. -/
def claimAddArgs (cmdLine : Option String) (forceIncludeArg : String) (c : CompileConfig) : CompileConfig :=
  match cmdLine with
  | none => c
  | some s => claimProcessArgs forceIncludeArg (splitCmdLine s) c

/-- Claim C2's rules amended minimally to match the source: an empty
token ends the processing (the `while (arg = args.shift())` loop
condition is falsy on it), and a forced-include flag whose consumed path
token is empty records nothing for it. -/
def amendedProcessArgs (forceIncludeArg : String) : List String → CompileConfig → CompileConfig
  | [], c => c
  | arg :: args, c =>
    if arg.length = 0 then c
    else if arg.length < 2 ∨ (arg.data.take 1 ≠ ['-'] ∧ arg.data.take 1 ≠ ['/']) then
      amendedProcessArgs forceIncludeArg args c
    else if secondCharD arg.data = 'D' then
      let d := buildDefine (strDrop arg 2) "="
      amendedProcessArgs forceIncludeArg args { c with defines := mapSet c.defines d.key d }
    else if secondCharD arg.data = 'I' then
      amendedProcessArgs forceIncludeArg args { c with includes := setAdd c.includes (strDrop arg 2) }
    else if arg = forceIncludeArg then
      match args with
      | [] => c
      | p :: rest =>
        amendedProcessArgs forceIncludeArg rest
          (if p.length = 0 then c else { c with forcedIncludes := setAdd c.forcedIncludes p })
    else amendedProcessArgs forceIncludeArg args c

/-- The amended reading of the whole call. -/
def amendedAddArgs (cmdLine : Option String) (forceIncludeArg : String) (c : CompileConfig) : CompileConfig :=
  match cmdLine with
  | none => c
  | some s => amendedProcessArgs forceIncludeArg (splitCmdLine s) c

/-! ## Concrete fixtures -/

/-- The diagnostic-output fixture of claim C1. -/
def fixtureOutput : String :=
  "#include <...> search starts here:\n /usr/include\n /System/Library/Frameworks (framework directory)\nEnd of search list.\n#define __VERSION__ \"1\""

/-- A small concrete starting config for witnesses. -/
def witnessConfig : CompileConfig :=
  { includes := ["x"]
    defines := [("A", { key := "A", value := "1" })]
    forcedIncludes := ["w"]
    intelliSenseMode := IntelliSenseMode.clang_x64
    standard := Versions.cpp14 }

/-- A small concrete heap for the cloning witness: two sets and one
map. -/
def witnessHeap : Heap :=
  { sets := [["a"], ["b"]]
    maps := [[("k", { key := "k", value := "1" })]] }

/-- A reference into `witnessHeap`. -/
def witnessRef : ConfigRef :=
  { includesH := 0
    definesH := 0
    forcedIncludesH := 1
    intelliSenseMode := IntelliSenseMode.clang_x64
    standard := Versions.cpp14 }

/-! ## Theorems

First a block of shared helper lemmas, then one theorem per claim (with
its witness or counterexample where required). -/

/-! ### Helper lemmas about `listIndexOf` and `buildDefine` -/

theorem indexOf_single (c : Char) :
    ∀ l : List Char,
      (c ∈ l →
        ∃ pos, listIndexOf [c] l = some pos ∧
          l.take pos = l.takeWhile (fun x => x != c) ∧
          l.drop (pos + 1) = (l.dropWhile (fun x => x != c)).drop 1) ∧
      (c ∉ l → listIndexOf [c] l = none) := by
  intro l
  induction l with
  | nil =>
    constructor
    · intro h; exact absurd h (List.not_mem_nil c)
    · intro _; simp [listIndexOf, List.isPrefixOf]
  | cons x rest ih =>
    by_cases hx : c = x
    · subst hx
      constructor
      · intro _
        refine ⟨0, ?_, ?_, ?_⟩
        · simp [listIndexOf, List.isPrefixOf]
        · simp [List.takeWhile_cons]
        · simp [List.dropWhile_cons]
      · intro h; exact absurd (List.mem_cons_self c rest) h
    · have hpre : ([c].isPrefixOf (x :: rest)) = false := by
        simp [List.isPrefixOf]
        exact hx
      constructor
      · intro hmem
        have hmem' : c ∈ rest := by
          rcases List.mem_cons.mp hmem with h | h
          · exact absurd h hx
          · exact h
        obtain ⟨pos, h1, h2, h3⟩ := ih.1 hmem'
        refine ⟨pos + 1, ?_, ?_, ?_⟩
        · simp [listIndexOf, hpre, h1]
        · have hxc : (x != c) = true := by
            simp [bne_iff_ne]
            exact fun h => hx h.symm
          simp [List.takeWhile_cons, hxc, List.take_succ_cons, h2]
        · have hxc : (x != c) = true := by
            simp [bne_iff_ne]
            exact fun h => hx h.symm
          simp [List.dropWhile_cons, hxc, List.drop_succ_cons, h3]
      · intro hmem
        have hmem' : c ∉ rest := fun h => hmem (List.mem_cons_of_mem x h)
        simp [listIndexOf, hpre, ih.2 hmem']

/-! ### Claim C5 -/

/-- Claim C5: for every text and single-character splitter,
`buildDefine` returns the substring before the first occurrence of the
splitter as key and the substring after it as value when the splitter
occurs, and the whole text with value `"1"` otherwise; in particular
`buildDefine "FOO=1" "="` is `{key := "FOO", value := "1"}` and
`buildDefine "FOO" "="` is `{key := "FOO", value := "1"}`. -/
theorem claim_C5_buildDefine_splitter :
    (∀ (text splitter : String) (c : Char), splitter.data = [c] →
      (c ∈ text.data →
        buildDefine text splitter =
          { key := String.mk (text.data.takeWhile (fun x => x != c))
            value := String.mk ((text.data.dropWhile (fun x => x != c)).drop 1) }) ∧
      (c ∉ text.data → buildDefine text splitter = { key := text, value := "1" })) ∧
    buildDefine "FOO=1" "=" = { key := "FOO", value := "1" } ∧
    buildDefine "FOO" "=" = { key := "FOO", value := "1" } := by
  refine ⟨?_, by decide, by decide⟩
  intro text splitter c hs
  constructor
  · intro hmem
    obtain ⟨pos, h1, h2, h3⟩ := (indexOf_single c text.data).1 hmem
    simp [buildDefine, hs, h1, h2, h3]
  · intro hmem
    simp [buildDefine, hs, (indexOf_single c text.data).2 hmem]

/-- Witness for claim C5 at a concrete input with the splitter
present. -/
theorem claim_C5_witness :
    buildDefine "KEY=VAL" "=" = { key := "KEY", value := "VAL" } := by
  have h := (claim_C5_buildDefine_splitter.1 "KEY=VAL" "=" '=' rfl).1 (by decide)
  simpa using h

/-! ### Claim C3 -/

/-- Claim C3: `MsvcCompiler.fetch` builds empty containers, then checks
those just-built containers for emptiness, so it fails for every input
and never returns a configuration. -/
theorem claim_C3_msvc_fetch_always_fails :
    ∀ (srcdir : String) (command : List String) (type : FileType) (compilerType : String),
      MsvcCompiler.fetch srcdir command type compilerType =
        Except.error "Compiler returned empty includes or defined." := by
  intro srcdir command type compilerType
  rfl

/-! ### Claim C4 -/

/-- Claim C4: after parsing both captured streams, an empty includes set
or an empty defines map makes `ClangCompiler.fetch` fail with an explicit
error, and a successfully returned configuration never has an empty
includes set or defines map. -/
theorem claim_C4_clang_fetch_empty_guard :
    ∀ (type : FileType) (stdout stderr : String),
      ((probeParse type stdout stderr).includes = [] ∨ (probeParse type stdout stderr).defines = [] →
        ClangCompiler.fetchFromOutput type stdout stderr =
          Except.error "Compiler returned empty includes or defined.") ∧
      (∀ cfg, ClangCompiler.fetchFromOutput type stdout stderr = Except.ok cfg →
        cfg.includes ≠ [] ∧ cfg.defines ≠ []) := by
  intro type stdout stderr
  constructor
  · intro h
    rcases h with h | h <;> simp [ClangCompiler.fetchFromOutput, h]
  · intro cfg hok
    by_cases h1 : (probeParse type stdout stderr).includes = []
    · have herr : ClangCompiler.fetchFromOutput type stdout stderr =
          Except.error "Compiler returned empty includes or defined." := by
        simp [ClangCompiler.fetchFromOutput, h1]
      rw [herr] at hok
      exact absurd hok (by simp)
    · by_cases h2 : (probeParse type stdout stderr).defines = []
      · have herr : ClangCompiler.fetchFromOutput type stdout stderr =
            Except.error "Compiler returned empty includes or defined." := by
          simp [ClangCompiler.fetchFromOutput, h2]
        rw [herr] at hok
        exact absurd hok (by simp)
      · have hokv : ClangCompiler.fetchFromOutput type stdout stderr =
            Except.ok (probeParse type stdout stderr) := by
          simp [ClangCompiler.fetchFromOutput, h1, h2]
        rw [hokv] at hok
        have hcfg : probeParse type stdout stderr = cfg := by simpa using hok
        rw [← hcfg]
        exact ⟨h1, h2⟩

/-- Witness for claim C4: output that parses to nothing makes the fetch
fail. -/
theorem claim_C4_witness :
    ClangCompiler.fetchFromOutput FileType.CPP "x" "y" =
      Except.error "Compiler returned empty includes or defined." :=
  (claim_C4_clang_fetch_empty_guard FileType.CPP "x" "y").1 (Or.inl (by decide))

/-! ### Helper lemmas about substring containment -/

theorem isPrefixOf_append_self : ∀ (p t : List Char), p.isPrefixOf (p ++ t) = true := by
  intro p t
  induction p with
  | nil => simp [List.isPrefixOf]
  | cons a p ih => simp [List.isPrefixOf, ih]

theorem indexOf_append_isSome :
    ∀ (pre pat post : List Char), (listIndexOf pat (pre ++ (pat ++ post))).isSome = true := by
  intro pre pat post
  induction pre with
  | nil =>
    rw [List.nil_append]
    match hm : pat ++ post with
    | [] =>
      have hp : pat = [] := by
        rcases List.append_eq_nil.mp hm with ⟨h1, _⟩
        exact h1
      subst hp
      simp [listIndexOf, List.isPrefixOf]
    | c :: rest =>
      rw [← hm]
      have : listIndexOf pat (pat ++ post) = some 0 := by
        rw [hm, ← hm]
        match hpat : pat ++ post with
        | [] => simp_all
        | c :: rest => simp [listIndexOf, ← hpat, isPrefixOf_append_self]
      simp [this]
  | cons a pre ih =>
    rw [List.cons_append]
    cases hb : pat.isPrefixOf (a :: (pre ++ (pat ++ post))) with
    | true => simp [listIndexOf, hb]
    | false =>
      simp only [listIndexOf, hb, Bool.false_eq_true, if_false]
      cases hr : listIndexOf pat (pre ++ (pat ++ post)) with
      | none => rw [hr] at ih; simp at ih
      | some n => simp

theorem strData_append (s t : String) : (s ++ t).data = s.data ++ t.data := rfl

theorem strContains_middle (pre pat post : String) :
    strContains (pre ++ pat ++ post) pat = true := by
  unfold strContains strIndexOf
  rw [strData_append, strData_append, List.append_assoc]
  exact indexOf_append_isSome pre.data pat.data post.data

/-! ### Claim C6 -/

/-- Claim C6: `Compiler.create` fails when the build configuration has no
compiler-family identifier, dispatches `clang` to the probing strategy
and `clang-cl`/`msvc` to the static strategy, and fails on any other
identifier with an error message containing that exact identifier. -/
theorem claim_C6_factory_dispatch :
    ∀ buildConfig : List (String × String),
      (lookupStr "CC_TYPE" buildConfig = none →
        Compiler.create buildConfig = Except.error "Unable to determine compiler types.") ∧
      (lookupStr "CC_TYPE" buildConfig = some "clang" →
        Compiler.create buildConfig = Except.ok Strategy.probing) ∧
      (lookupStr "CC_TYPE" buildConfig = some "clang-cl" →
        Compiler.create buildConfig = Except.ok (Strategy.staticStrategy "clang-cl")) ∧
      (lookupStr "CC_TYPE" buildConfig = some "msvc" →
        Compiler.create buildConfig = Except.ok (Strategy.staticStrategy "msvc")) ∧
      (∀ ct, lookupStr "CC_TYPE" buildConfig = some ct →
        ct ≠ "" → ct ≠ "clang" → ct ≠ "clang-cl" → ct ≠ "msvc" →
        Compiler.create buildConfig = Except.error ("Unknown compiler type " ++ ct ++ ".") ∧
        strContains ("Unknown compiler type " ++ ct ++ ".") ct = true) := by
  intro buildConfig
  refine ⟨?_, ?_, ?_, ?_, ?_⟩
  · intro h; simp [Compiler.create, h]
  · intro h; simp [Compiler.create, h]
  · intro h; simp [Compiler.create, h]
  · intro h; simp [Compiler.create, h]
  · intro ct h h0 h1 h2 h3
    constructor
    · simp [Compiler.create, h, h0, h1, h2, h3]
    · exact strContains_middle "Unknown compiler type " ct "."

/-- Witness for claim C6 at an unrecognized identifier. -/
theorem claim_C6_witness :
    Compiler.create [("CC_TYPE", "gcc")] = Except.error "Unknown compiler type gcc." ∧
    strContains "Unknown compiler type gcc." "gcc" = true := by
  have h := (claim_C6_factory_dispatch [("CC_TYPE", "gcc")]).2.2.2.2 "gcc"
    (by decide) (by decide) (by decide) (by decide) (by decide)
  exact h

/-! ### Claim C1 -/

theorem head_eq_take_one (l : List Char) (c : Char) :
    l.head? = some c ↔ l.take 1 = [c] := by
  cases l <;> simp

theorem parseDefaultsLines_eq_specScanLines :
    ∀ (lines : List String) (b : Bool) (cfg : CompileConfig),
      parseDefaultsLines b lines cfg = specScanLines b lines cfg := by
  intro lines
  induction lines with
  | nil => intro b cfg; cases b <;> rfl
  | cons line rest ih =>
    intro b cfg
    cases b with
    | true =>
      by_cases hs : line.data.head? = some ' '
      · have ht : line.data.take 1 = [' '] := (head_eq_take_one line.data ' ').mp hs
        cases he : strEndsWith (jsTrim line) FRAMEWORK_MARKER with
        | true =>
          simp only [parseDefaultsLines, specScanLines, specIncludeEntry, hs, ht, he,
            and_true, if_true, if_pos trivial]
          simp [he, ih]
        | false =>
          simp only [parseDefaultsLines, specScanLines, specIncludeEntry, hs, ht, he,
            and_true, if_true, if_pos trivial]
          simp [he, ih]
      · have ht : ¬ line.data.take 1 = [' '] := fun h => hs ((head_eq_take_one line.data ' ').mpr h)
        cases h1 : strStartsWith line "#include " with
        | true =>
          simp only [parseDefaultsLines, specScanLines, specLineRules, hs, ht, h1, and_false,
            if_false, if_true, ite_false, ite_true]
          simp [hs, ht, h1, ih]
        | false =>
          cases h2 : strStartsWith line "#define " with
          | true => simp [parseDefaultsLines, specScanLines, specLineRules, hs, ht, h1, h2, ih]
          | false => simp [parseDefaultsLines, specScanLines, specLineRules, hs, ht, h1, h2, ih]
    | false =>
      cases h1 : strStartsWith line "#include " with
      | true => simp [parseDefaultsLines, specScanLines, specLineRules, h1, ih]
      | false =>
        cases h2 : strStartsWith line "#define " with
        | true => simp [parseDefaultsLines, specScanLines, specLineRules, h1, h2, ih]
        | false => simp [parseDefaultsLines, specScanLines, specLineRules, h1, h2, ih]

/-- Claim C1: over any output text, `ClangCompiler.parseCompilerDefaults`
behaves as the two-state scan the claim describes (formalized by
`specScanLines`/`specLineRules`), and on the claimed diagnostic fixture
it produces exactly the two include paths (the framework marker
stripped) and the `__VERSION__` define, whose value is the verbatim
remainder `"1"` of the `#define` line after the first space. -/
theorem claim_C1_parseCompilerDefaults_two_state_scan :
    (∀ (output : String) (defaults : CompileConfig),
      ClangCompiler.parseCompilerDefaults output defaults = specParseCompilerDefaults output defaults) ∧
    ClangCompiler.parseCompilerDefaults fixtureOutput (clangFreshDefaults FileType.CPP) =
      { includes := ["/usr/include", "/System/Library/Frameworks"]
        defines := [("__VERSION__", { key := "__VERSION__", value := "\"1\"" })]
        forcedIncludes := []
        intelliSenseMode := IntelliSenseMode.clang_x64
        standard := Versions.cpp14 } := by
  constructor
  · intro output defaults
    exact parseDefaultsLines_eq_specScanLines (strLines (jsTrim output)) false defaults
  · decide

/-! ### Helper lemmas about `setAdd` / `setAddAll` -/

theorem mem_setAdd {y x : String} {s : List String} :
    y ∈ setAdd s x ↔ y ∈ s ∨ y = x := by
  unfold setAdd
  by_cases h : x ∈ s
  · simp only [if_pos h]
    constructor
    · exact Or.inl
    · rintro (hy | rfl)
      · exact hy
      · exact h
  · simp [if_neg h]

theorem setAdd_self (x : String) (s : List String) : x ∈ setAdd s x :=
  mem_setAdd.mpr (Or.inr rfl)

theorem setAdd_of_mem {x : String} {s : List String} (h : x ∈ s) : setAdd s x = s := by
  simp [setAdd, h]

theorem setAddAll_cons (s : List String) (x : String) (xs : List String) :
    setAddAll s (x :: xs) = setAddAll (setAdd s x) xs := by
  simp [setAddAll]

theorem mem_setAddAll_left {y : String} :
    ∀ (xs : List String) (s : List String), y ∈ s → y ∈ setAddAll s xs := by
  intro xs
  induction xs with
  | nil => intro s h; simpa [setAddAll] using h
  | cons x xs ih =>
    intro s h
    rw [setAddAll_cons]
    exact ih (setAdd s x) (mem_setAdd.mpr (Or.inl h))

theorem mem_setAddAll_right {y : String} :
    ∀ (xs : List String) (s : List String), y ∈ xs → y ∈ setAddAll s xs := by
  intro xs
  induction xs with
  | nil => intro s h; exact absurd h (List.not_mem_nil y)
  | cons x xs ih =>
    intro s h
    rw [setAddAll_cons]
    rcases List.mem_cons.mp h with rfl | h
    · exact mem_setAddAll_left xs (setAdd s y) (setAdd_self y s)
    · exact ih (setAdd s x) h

theorem setAddAll_of_subset :
    ∀ (xs : List String) (s : List String), (∀ x ∈ xs, x ∈ s) → setAddAll s xs = s := by
  intro xs
  induction xs with
  | nil => intro s _; rfl
  | cons x xs ih =>
    intro s h
    rw [setAddAll_cons, setAdd_of_mem (h x (List.mem_cons_self x xs))]
    exact ih s (fun z hz => h z (List.mem_cons_of_mem x hz))

theorem setAddAll_idem (s : List String) (xs : List String) :
    setAddAll (setAddAll s xs) xs = setAddAll s xs :=
  setAddAll_of_subset xs (setAddAll s xs) (fun x hx => mem_setAddAll_right xs s hx)

/-! ### Helper lemmas about `mapSet` / `mapSetAll` -/

theorem keysOf_mapSet :
    ∀ (m : List (String × Define)) (k : String) (v : Define),
      keysOf (mapSet m k v) = if k ∈ keysOf m then keysOf m else keysOf m ++ [k] := by
  intro m
  induction m with
  | nil => intro k v; simp [mapSet, keysOf]
  | cons p rest ih =>
    intro k v
    obtain ⟨k', v'⟩ := p
    by_cases h : k' = k
    · subst h
      simp [mapSet, keysOf]
    · have hne : k ≠ k' := fun hk => h hk.symm
      rw [show mapSet ((k', v') :: rest) k v = (k', v') :: mapSet rest k v from by simp [mapSet, h]]
      show k' :: keysOf (mapSet rest k v) = _
      rw [ih k v]
      rw [show keysOf ((k', v') :: rest) = k' :: keysOf rest from rfl]
      by_cases hm : k ∈ keysOf rest
      · rw [if_pos hm, if_pos (show k ∈ k' :: keysOf rest from List.mem_cons_of_mem k' hm)]
      · rw [if_neg hm, if_neg (show k ∉ k' :: keysOf rest from by
          intro hmem
          rcases List.mem_cons.mp hmem with hh | hh
          · exact hne hh
          · exact hm hh)]
        rfl

theorem mem_keysOf_mapSet {q : String} :
    ∀ (m : List (String × Define)) (k : String) (v : Define),
      q ∈ keysOf m → q ∈ keysOf (mapSet m k v) := by
  intro m k v h
  rw [keysOf_mapSet]
  by_cases hm : k ∈ keysOf m
  · simpa [hm] using h
  · simp [hm, List.mem_append, h]

theorem self_mem_keysOf_mapSet (m : List (String × Define)) (k : String) (v : Define) :
    k ∈ keysOf (mapSet m k v) := by
  rw [keysOf_mapSet]
  by_cases hm : k ∈ keysOf m
  · simpa [hm]
  · simp [hm]

theorem lookupD_mapSet :
    ∀ (m : List (String × Define)) (q k : String) (v : Define),
      lookupD q (mapSet m k v) = if q = k then some v else lookupD q m := by
  intro m
  induction m with
  | nil =>
    intro q k v
    by_cases h : q = k
    · subst h; simp [mapSet, lookupD]
    · have h' : ¬ k = q := fun hk => h hk.symm
      simp [mapSet, lookupD, h, h']
  | cons p rest ih =>
    intro q k v
    obtain ⟨k', v'⟩ := p
    by_cases h : k' = k
    · subst h
      simp only [mapSet, if_pos rfl]
      by_cases hq : q = k'
      · subst hq; simp [lookupD]
      · have h1 : ¬ k' = q := fun hk => hq hk.symm
        simp [lookupD, hq, h1]
    · simp only [mapSet, if_neg h]
      by_cases hq : k' = q
      · subst hq
        simp [lookupD, h]
      · simp [lookupD, hq, ih]

theorem nodup_keysOf_mapSet {m : List (String × Define)} (k : String) (v : Define)
    (h : (keysOf m).Nodup) : (keysOf (mapSet m k v)).Nodup := by
  rw [keysOf_mapSet]
  by_cases hm : k ∈ keysOf m
  · simpa [hm]
  · simp only [if_neg hm]
    rw [List.nodup_append]
    exact ⟨h, List.nodup_singleton k, by simpa using hm⟩

theorem mapSetAll_cons (m : List (String × Define)) (kv : String × Define)
    (kvs : List (String × Define)) :
    mapSetAll m (kv :: kvs) = mapSetAll (mapSet m kv.1 kv.2) kvs := by
  simp [mapSetAll]

theorem mem_keysOf_mapSetAll_left {q : String} :
    ∀ (kvs : List (String × Define)) (m : List (String × Define)),
      q ∈ keysOf m → q ∈ keysOf (mapSetAll m kvs) := by
  intro kvs
  induction kvs with
  | nil => intro m h; simpa [mapSetAll] using h
  | cons kv kvs ih =>
    intro m h
    rw [mapSetAll_cons]
    exact ih (mapSet m kv.1 kv.2) (mem_keysOf_mapSet m kv.1 kv.2 h)

theorem mem_keysOf_mapSetAll_right {q : String} :
    ∀ (kvs : List (String × Define)) (m : List (String × Define)),
      q ∈ keysOf kvs → q ∈ keysOf (mapSetAll m kvs) := by
  intro kvs
  induction kvs with
  | nil => intro m h; exact absurd h (List.not_mem_nil q)
  | cons kv kvs ih =>
    intro m h
    rw [mapSetAll_cons]
    rcases List.mem_cons.mp h with h | h
    · rw [show kv.1 = q from h.symm] at *
      exact mem_keysOf_mapSetAll_left kvs (mapSet m q kv.2) (self_mem_keysOf_mapSet m q kv.2)
    · exact ih (mapSet m kv.1 kv.2) h

theorem keysOf_mapSetAll_of_subset :
    ∀ (kvs : List (String × Define)) (m : List (String × Define)),
      (∀ q ∈ keysOf kvs, q ∈ keysOf m) → keysOf (mapSetAll m kvs) = keysOf m := by
  intro kvs
  induction kvs with
  | nil => intro m _; rfl
  | cons kv kvs ih =>
    intro m h
    have hk : kv.1 ∈ keysOf m := h kv.1 (by simp [keysOf])
    have hkeys : keysOf (mapSet m kv.1 kv.2) = keysOf m := by
      rw [keysOf_mapSet, if_pos hk]
    rw [mapSetAll_cons, ih (mapSet m kv.1 kv.2) (fun q hq => by
      rw [hkeys]
      exact h q (by simp [keysOf] at hq ⊢; exact Or.inr hq)), hkeys]

theorem nodup_keysOf_mapSetAll :
    ∀ (kvs : List (String × Define)) (m : List (String × Define)),
      (keysOf m).Nodup → (keysOf (mapSetAll m kvs)).Nodup := by
  intro kvs
  induction kvs with
  | nil => intro m h; simpa [mapSetAll] using h
  | cons kv kvs ih =>
    intro m h
    rw [mapSetAll_cons]
    exact ih (mapSet m kv.1 kv.2) (nodup_keysOf_mapSet kv.1 kv.2 h)

theorem lookupD_mapSetAll :
    ∀ (kvs : List (String × Define)) (m : List (String × Define)) (q : String),
      lookupD q (mapSetAll m kvs) = optOr (lastVal q kvs) (lookupD q m) := by
  intro kvs
  induction kvs with
  | nil => intro m q; simp [mapSetAll, lastVal, optOr]
  | cons kv kvs ih =>
    intro m q
    obtain ⟨k', v'⟩ := kv
    rw [mapSetAll_cons]
    rw [ih (mapSet m k' v') q]
    rw [lookupD_mapSet]
    show optOr (lastVal q kvs) (if q = k' then some v' else lookupD q m) =
      optOr (optOr (lastVal q kvs) (if k' = q then some v' else none)) (lookupD q m)
    cases lastVal q kvs with
    | some w => simp [optOr]
    | none =>
      by_cases hq : q = k'
      · subst hq; simp [optOr]
      · have : ¬ k' = q := fun h => hq h.symm
        simp [optOr, hq, this]

theorem lookupD_eq_none_of_not_mem {q : String} :
    ∀ m : List (String × Define), q ∉ keysOf m → lookupD q m = none := by
  intro m
  induction m with
  | nil => intro _; rfl
  | cons p rest ih =>
    intro h
    obtain ⟨k', v'⟩ := p
    have h1 : k' ≠ q := by
      intro hk
      exact h (by simp [keysOf, hk])
    have h2 : q ∉ keysOf rest := fun hq => h (by simp [keysOf] at hq ⊢; exact Or.inr hq)
    simp [lookupD, h1, ih h2]

theorem assocList_ext :
    ∀ (l1 l2 : List (String × Define)), keysOf l1 = keysOf l2 → (keysOf l1).Nodup →
      (∀ q, lookupD q l1 = lookupD q l2) → l1 = l2 := by
  intro l1
  induction l1 with
  | nil =>
    intro l2 hk _ _
    cases l2 with
    | nil => rfl
    | cons p t => simp [keysOf] at hk
  | cons p t ih =>
    intro l2 hk hnd hl
    cases l2 with
    | nil => simp [keysOf] at hk
    | cons q t2 =>
      obtain ⟨k1, v1⟩ := p
      obtain ⟨k2, v2⟩ := q
      simp only [keysOf, List.map_cons, List.cons.injEq] at hk
      obtain ⟨hkey, htails⟩ := hk
      subst hkey
      have hval : v1 = v2 := by
        have := hl k1
        simp [lookupD] at this
        exact this
      subst hval
      have htails' : keysOf t = keysOf t2 := htails
      have hnd' : (keysOf t).Nodup := (List.nodup_cons.mp hnd).2
      have hk1t : k1 ∉ keysOf t := (List.nodup_cons.mp hnd).1
      have hk1t2 : k1 ∉ keysOf t2 := by rw [← htails']; exact hk1t
      have htl : ∀ r, lookupD r t = lookupD r t2 := by
        intro r
        by_cases hr : r = k1
        · subst hr
          rw [lookupD_eq_none_of_not_mem t hk1t, lookupD_eq_none_of_not_mem t2 hk1t2]
        · have hlr := hl r
          have hne : k1 ≠ r := fun h => hr h.symm
          simpa [lookupD, hne] using hlr
      rw [ih t2 htails' hnd' htl]

theorem mapSetAll_idem (m : List (String × Define)) (kvs : List (String × Define))
    (h : (keysOf m).Nodup) :
    mapSetAll (mapSetAll m kvs) kvs = mapSetAll m kvs := by
  apply assocList_ext
  · exact keysOf_mapSetAll_of_subset kvs (mapSetAll m kvs)
      (fun q hq => mem_keysOf_mapSetAll_right kvs m hq)
  · rw [keysOf_mapSetAll_of_subset kvs (mapSetAll m kvs)
      (fun q hq => mem_keysOf_mapSetAll_right kvs m hq)]
    exact nodup_keysOf_mapSetAll kvs m h
  · intro q
    rw [lookupD_mapSetAll, lookupD_mapSetAll]
    cases lastVal q kvs with
    | some w => simp [optOr]
    | none => simp [optOr]


/-! ### Step equations for the override-parser functions -/

theorem processArgs_nil (f : String) (c : CompileConfig) : processArgs f [] c = c := rfl

theorem processArgs_cons (f arg : String) (args : List String) (c : CompileConfig) :
    processArgs f (arg :: args) c =
      (if classifyArg f arg = ArgKind.empty then c
      else if classifyArg f arg = ArgKind.defineArg then
        processArgs f args
          { c with defines := mapSet c.defines (buildDefine (strDrop arg 2) "=").key (buildDefine (strDrop arg 2) "=") }
      else if classifyArg f arg = ArgKind.includeArg then
        processArgs f args { c with includes := setAdd c.includes (strDrop arg 2) }
      else if classifyArg f arg = ArgKind.forceArg then
        match args with
        | [] => c
        | inc :: rest =>
          if inc = "" then processArgs f rest c
          else processArgs f rest { c with forcedIncludes := setAdd c.forcedIncludes inc }
      else processArgs f args c) := by
  conv_lhs => rw [processArgs.eq_def]

theorem incDeltas_nil (f : String) : incDeltas f [] = [] := rfl

theorem incDeltas_cons (f arg : String) (args : List String) :
    incDeltas f (arg :: args) =
      (if classifyArg f arg = ArgKind.empty then []
      else if classifyArg f arg = ArgKind.defineArg then incDeltas f args
      else if classifyArg f arg = ArgKind.includeArg then strDrop arg 2 :: incDeltas f args
      else if classifyArg f arg = ArgKind.forceArg then
        match args with
        | [] => []
        | _ :: rest => incDeltas f rest
      else incDeltas f args) := by
  conv_lhs => rw [incDeltas.eq_def]

theorem defDeltas_nil (f : String) : defDeltas f [] = [] := rfl

theorem defDeltas_cons (f arg : String) (args : List String) :
    defDeltas f (arg :: args) =
      (if classifyArg f arg = ArgKind.empty then []
      else if classifyArg f arg = ArgKind.defineArg then
        ((buildDefine (strDrop arg 2) "=").key, buildDefine (strDrop arg 2) "=") :: defDeltas f args
      else if classifyArg f arg = ArgKind.includeArg then defDeltas f args
      else if classifyArg f arg = ArgKind.forceArg then
        match args with
        | [] => []
        | _ :: rest => defDeltas f rest
      else defDeltas f args) := by
  conv_lhs => rw [defDeltas.eq_def]

theorem forceDeltas_nil (f : String) : forceDeltas f [] = [] := rfl

theorem forceDeltas_cons (f arg : String) (args : List String) :
    forceDeltas f (arg :: args) =
      (if classifyArg f arg = ArgKind.empty then []
      else if classifyArg f arg = ArgKind.defineArg then forceDeltas f args
      else if classifyArg f arg = ArgKind.includeArg then forceDeltas f args
      else if classifyArg f arg = ArgKind.forceArg then
        match args with
        | [] => []
        | inc :: rest =>
          if inc = "" then forceDeltas f rest
          else inc :: forceDeltas f rest
      else forceDeltas f args) := by
  conv_lhs => rw [forceDeltas.eq_def]

theorem pendingForce_nil (f : String) : pendingForce f [] = false := rfl

theorem pendingForce_cons (f arg : String) (args : List String) :
    pendingForce f (arg :: args) =
      (if classifyArg f arg = ArgKind.empty then false
      else if classifyArg f arg = ArgKind.forceArg then
        match args with
        | [] => true
        | _ :: rest => pendingForce f rest
      else pendingForce f args) := by
  conv_lhs => rw [pendingForce.eq_def]

/-! ### The delta characterization of `processArgs` -/

theorem processArgs_delta (f : String) :
    ∀ (args : List String) (c : CompileConfig),
      processArgs f args c =
        { includes := setAddAll c.includes (incDeltas f args)
          defines := mapSetAll c.defines (defDeltas f args)
          forcedIncludes := setAddAll c.forcedIncludes (forceDeltas f args)
          intelliSenseMode := c.intelliSenseMode
          standard := c.standard } := by
  intro args c
  induction args, c using processArgs.induct f with
  | case1 c =>
    simp [processArgs_nil, incDeltas_nil, defDeltas_nil, forceDeltas_nil, setAddAll, mapSetAll]
  | case2 arg args c h1 =>
    simp [processArgs_cons, incDeltas_cons, defDeltas_cons, forceDeltas_cons, h1, setAddAll, mapSetAll]
  | case3 arg args c h1 h2 ih =>
    simp [processArgs_cons, incDeltas_cons, defDeltas_cons, forceDeltas_cons, h1, h2, ih,
      mapSetAll_cons, setAddAll]
  | case4 arg args c h1 h2 h3 ih =>
    simp [processArgs_cons, incDeltas_cons, defDeltas_cons, forceDeltas_cons, h1, h2, h3, ih,
      setAddAll_cons, setAddAll]
  | case5 arg c h1 h2 h3 h4 =>
    simp [processArgs_cons, incDeltas_cons, defDeltas_cons, forceDeltas_cons, h1, h2, h3, h4,
      setAddAll, mapSetAll]
  | case6 arg c h1 h2 h3 h4 rest ih =>
    simp [processArgs_cons, incDeltas_cons, defDeltas_cons, forceDeltas_cons, h1, h2, h3, h4, ih]
  | case7 arg c h1 h2 h3 h4 inc rest hinc ih =>
    simp [processArgs_cons, incDeltas_cons, defDeltas_cons, forceDeltas_cons, h1, h2, h3, h4, hinc,
      ih, setAddAll_cons, setAddAll]
  | case8 arg args c h1 h2 h3 h4 ih =>
    simp [processArgs_cons, incDeltas_cons, defDeltas_cons, forceDeltas_cons, h1, h2, h3, h4, ih]

/-! ### Claim C9 -/

/-- Claim C9: `addCompilerArgumentsToConfig` only grows the config: every
include, define key and forced include of the original is still present
afterwards, and the `intelliSenseMode` and `standard` fields are
unchanged. -/
theorem claim_C9_config_growth :
    ∀ (cmdLine : Option String) (forceIncludeArg : String) (c : CompileConfig),
      (∀ x, x ∈ c.includes → x ∈ (addCompilerArgumentsToConfig cmdLine forceIncludeArg c).includes) ∧
      (∀ k, k ∈ keysOf c.defines → k ∈ keysOf (addCompilerArgumentsToConfig cmdLine forceIncludeArg c).defines) ∧
      (∀ x, x ∈ c.forcedIncludes → x ∈ (addCompilerArgumentsToConfig cmdLine forceIncludeArg c).forcedIncludes) ∧
      (addCompilerArgumentsToConfig cmdLine forceIncludeArg c).intelliSenseMode = c.intelliSenseMode ∧
      (addCompilerArgumentsToConfig cmdLine forceIncludeArg c).standard = c.standard := by
  intro cmdLine f c
  match cmdLine with
  | none =>
    refine ⟨fun x hx => hx, fun k hk => hk, fun x hx => hx, rfl, rfl⟩
  | some s =>
    by_cases hs : s = ""
    · subst hs
      refine ⟨fun x hx => hx, fun k hk => hk, fun x hx => hx, rfl, rfl⟩
    · simp only [addCompilerArgumentsToConfig, if_neg hs]
      rw [processArgs_delta]
      refine ⟨?_, ?_, ?_, rfl, rfl⟩
      · intro x hx; exact mem_setAddAll_left _ _ hx
      · intro k hk; exact mem_keysOf_mapSetAll_left _ _ hk
      · intro x hx; exact mem_setAddAll_left _ _ hx

/-- Witness for claim C9 at a concrete command line and config. -/
theorem claim_C9_witness :
    "x" ∈ (addCompilerArgumentsToConfig (some "-Ia -DB=2") "-include" witnessConfig).includes ∧
    "A" ∈ keysOf (addCompilerArgumentsToConfig (some "-Ia -DB=2") "-include" witnessConfig).defines ∧
    "w" ∈ (addCompilerArgumentsToConfig (some "-Ia -DB=2") "-include" witnessConfig).forcedIncludes := by
  obtain ⟨h1, h2, h3, _, _⟩ := claim_C9_config_growth (some "-Ia -DB=2") "-include" witnessConfig
  exact ⟨h1 "x" (by decide), h2 "A" (by decide), h3 "w" (by decide)⟩

/-! ### Claim C10 -/

/-- Claim C10: `addCompilerArgumentsToConfig` is idempotent — applying it
a second time with the same command line and flag changes nothing.  The
starting config is assumed to have duplicate-free define keys, which
every configuration represented by a JS `Map` has. -/
theorem claim_C10_idempotent :
    ∀ (cmdLine : Option String) (forceIncludeArg : String) (c : CompileConfig),
      (keysOf c.defines).Nodup →
      addCompilerArgumentsToConfig cmdLine forceIncludeArg
          (addCompilerArgumentsToConfig cmdLine forceIncludeArg c) =
        addCompilerArgumentsToConfig cmdLine forceIncludeArg c := by
  intro cmdLine f c hnd
  match cmdLine with
  | none => rfl
  | some s =>
    by_cases hs : s = ""
    · subst hs; rfl
    · simp only [addCompilerArgumentsToConfig, if_neg hs]
      rw [processArgs_delta, processArgs_delta]
      simp [CompileConfig.mk.injEq, setAddAll_idem,
        mapSetAll_idem c.defines (defDeltas f (splitCmdLine s)) hnd]

/-- Witness for claim C10 at a concrete command line and config with
duplicate-free define keys. -/
theorem claim_C10_witness :
    addCompilerArgumentsToConfig (some "-DX=2 -Ifoo -include h.h") "-include"
        (addCompilerArgumentsToConfig (some "-DX=2 -Ifoo -include h.h") "-include" witnessConfig) =
      addCompilerArgumentsToConfig (some "-DX=2 -Ifoo -include h.h") "-include" witnessConfig :=
  claim_C10_idempotent (some "-DX=2 -Ifoo -include h.h") "-include" witnessConfig (by decide)

/-! ### Claim C8 -/

theorem forceDeltas_append_flag (f : String) :
    ∀ toks : List String, pendingForce f toks = false →
      forceDeltas f (toks ++ [f]) = forceDeltas f toks := by
  intro toks
  induction toks using pendingForce.induct f with
  | case1 =>
    intro _
    cases hc : classifyArg f f <;> simp [forceDeltas_cons, forceDeltas_nil, hc]
  | case2 arg args h1 =>
    intro _
    simp [forceDeltas_cons, h1]
  | case3 arg h1 h2 =>
    intro hp
    rw [pendingForce_cons, if_neg h1, if_pos h2] at hp
    simp at hp
  | case4 arg h1 h2 a rest ih =>
    intro hp
    rw [pendingForce_cons, if_neg h1, if_pos h2] at hp
    have hp' : pendingForce f rest = false := hp
    by_cases ha : a = ""
    · simp [forceDeltas_cons, h1, h2, ha, ih hp']
    · simp [forceDeltas_cons, h1, h2, ha, ih hp']
  | case5 arg args h1 h2 ih =>
    intro hp
    rw [pendingForce_cons] at hp
    simp only [if_neg h1, if_neg h2] at hp
    cases hc : classifyArg f arg with
    | empty => exact absurd hc h1
    | forceArg => exact absurd hc h2
    | skip => simp [forceDeltas_cons, hc, ih hp]
    | defineArg => simp [forceDeltas_cons, hc, ih hp]
    | includeArg => simp [forceDeltas_cons, hc, ih hp]

theorem processArgs_dangling (f : String) (c : CompileConfig) (toks : List String)
    (hp : pendingForce f toks = false) :
    (processArgs f (toks ++ [f]) c).forcedIncludes = (processArgs f toks c).forcedIncludes := by
  rw [processArgs_delta, processArgs_delta]
  simp [forceDeltas_append_flag f toks hp]

/-- Claim C8: a trailing forced-include flag with no following token is a
silent no-op (the model is a total function, so no exception can occur,
and nothing is inserted into `forcedIncludes`), and an absent or empty
command line leaves the config entirely unchanged.  The no-op part is
stated over any token list whose processing reaches the trailing flag in
flag position (`pendingForce` is false), both at the token level and for
any command line tokenizing that way. -/
theorem claim_C8_dangling_force_flag :
    ∀ (forceIncludeArg : String) (c : CompileConfig),
      addCompilerArgumentsToConfig none forceIncludeArg c = c ∧
      addCompilerArgumentsToConfig (some "") forceIncludeArg c = c ∧
      (∀ toks : List String, pendingForce forceIncludeArg toks = false →
        (processArgs forceIncludeArg (toks ++ [forceIncludeArg]) c).forcedIncludes =
          (processArgs forceIncludeArg toks c).forcedIncludes) ∧
      (∀ (s : String) (toks : List String),
        splitCmdLine s = toks ++ [forceIncludeArg] →
        pendingForce forceIncludeArg toks = false →
        (addCompilerArgumentsToConfig (some s) forceIncludeArg c).forcedIncludes =
          (processArgs forceIncludeArg toks c).forcedIncludes) := by
  intro f c
  refine ⟨rfl, rfl, ?_, ?_⟩
  · intro toks hp
    exact processArgs_dangling f c toks hp
  · intro s toks hsplit hp
    have hs : s ≠ "" := by
      intro h
      subst h
      rw [show splitCmdLine "" = [] from rfl] at hsplit
      exact absurd hsplit.symm (by simp)
    simp only [addCompilerArgumentsToConfig, if_neg hs]
    rw [hsplit]
    exact processArgs_dangling f c toks hp

/-- Witness for claim C8: a concrete token list ending in a dangling
`-include` flag inserts nothing. -/
theorem claim_C8_witness :
    (processArgs "-include" (["-DA"] ++ ["-include"]) witnessConfig).forcedIncludes =
      (processArgs "-include" ["-DA"] witnessConfig).forcedIncludes :=
  (claim_C8_dangling_force_flag "-include" witnessConfig).2.2.1 ["-DA"] (by decide)

/-! ### Claim C2 -/

theorem strLength_eq_zero_iff (s : String) : s.length = 0 ↔ s = "" := by
  cases s with
  | mk data =>
    constructor
    · intro h
      have h' : data.length = 0 := h
      have hd : data = [] := List.eq_nil_of_length_eq_zero h'
      subst hd
      rfl
    · intro h
      have hd : data = [] := by
        have hcongr := congrArg String.data h
        simpa using hcongr
      subst hd
      rfl

theorem amended_step (f arg : String) (args : List String) (c : CompileConfig) :
    amendedProcessArgs f (arg :: args) c =
      (if classifyArg f arg = ArgKind.empty then c
      else if classifyArg f arg = ArgKind.defineArg then
        amendedProcessArgs f args
          { c with defines := mapSet c.defines (buildDefine (strDrop arg 2) "=").key (buildDefine (strDrop arg 2) "=") }
      else if classifyArg f arg = ArgKind.includeArg then
        amendedProcessArgs f args { c with includes := setAdd c.includes (strDrop arg 2) }
      else if classifyArg f arg = ArgKind.forceArg then
        match args with
        | [] => c
        | p :: rest =>
          amendedProcessArgs f rest (if p.length = 0 then c else { c with forcedIncludes := setAdd c.forcedIncludes p })
      else amendedProcessArgs f args c) := by
  have hlen : arg.length = arg.data.length := rfl
  rw [amendedProcessArgs.eq_def]
  cases harg : arg.data with
  | nil =>
    have h0 : arg.length = 0 := by rw [hlen, harg]; rfl
    have hcl : classifyArg f arg = ArgKind.empty := by simp [classifyArg, harg]
    simp [h0, hcl]
  | cons c0 tail =>
    cases tail with
    | nil =>
      have h0 : ¬ arg.length = 0 := by rw [hlen, harg]; simp
      have h2 : arg.length < 2 := by rw [hlen, harg]; simp
      have hcl : classifyArg f arg = ArgKind.skip := by simp [classifyArg, harg]
      simp [h0, h2, hcl]
    | cons c1 tail2 =>
      have h0 : ¬ arg.length = 0 := by rw [hlen, harg]; simp
      have h2 : ¬ arg.length < 2 := by rw [hlen, harg]; simp
      have htake : arg.data.take 1 = [c0] := by rw [harg]; rfl
      have hsec : secondCharD arg.data = c1 := by rw [harg]; rfl
      by_cases hc0 : c0 ≠ '-' ∧ c0 ≠ '/'
      · have hcl : classifyArg f arg = ArgKind.skip := by simp [classifyArg, harg, hc0]
        have hcond : arg.length < 2 ∨ (arg.data.take 1 ≠ ['-'] ∧ arg.data.take 1 ≠ ['/']) := by
          right
          rw [htake]
          simpa using hc0
        simp [h0, hcond, hcl]
      · have hd : c0 = '-' ∨ c0 = '/' := by
          by_cases hm : c0 = '-'
          · exact Or.inl hm
          · right
            by_cases hs : c0 = '/'
            · exact hs
            · exact absurd ⟨hm, hs⟩ hc0
        have hcond : ¬ (arg.length < 2 ∨ (arg.data.take 1 ≠ ['-'] ∧ arg.data.take 1 ≠ ['/'])) := by
          rw [htake]
          rintro (hlt | ⟨hn1, hn2⟩)
          · exact h2 hlt
          · rcases hd with h | h
            · exact hn1 (by rw [h])
            · exact hn2 (by rw [h])
        by_cases hD : c1 = 'D'
        · have hcl : classifyArg f arg = ArgKind.defineArg := by
            simp [classifyArg, harg, hc0, hD]
          simp [h0, hcond, hsec, hD, hcl]
        · by_cases hI : c1 = 'I'
          · have hcl : classifyArg f arg = ArgKind.includeArg := by
              simp [classifyArg, harg, hc0, hD, hI]
            simp [h0, hcond, hsec, hD, hI, hcl]
          · by_cases hF : arg = f
            · have hcl : classifyArg f arg = ArgKind.forceArg := by
                have hargf : f.data = c0 :: c1 :: tail2 := by rw [← hF]; exact harg
                simp [classifyArg, hargf, hc0, hD, hI, hF]
              simp only [h0, if_false, ite_false, if_neg h0, if_neg hcond, hsec, if_neg hD,
                if_neg hI, hcl, if_pos hF]
              simp [hcl]
            · have hcl : classifyArg f arg = ArgKind.skip := by
                simp [classifyArg, harg, hc0, hD, hI, hF]
              simp [h0, hcond, hsec, hD, hI, hF, hcl]

theorem processArgs_eq_amended (f : String) :
    ∀ (args : List String) (c : CompileConfig),
      processArgs f args c = amendedProcessArgs f args c := by
  intro args c
  induction args, c using processArgs.induct f with
  | case1 c => rfl
  | case2 arg args c h1 =>
    rw [processArgs_cons, amended_step]
    simp [h1]
  | case3 arg args c h1 h2 ih =>
    rw [processArgs_cons, amended_step]
    simp [h1, h2, ih]
  | case4 arg args c h1 h2 h3 ih =>
    rw [processArgs_cons, amended_step]
    simp [h1, h2, h3, ih]
  | case5 arg c h1 h2 h3 h4 =>
    rw [processArgs_cons, amended_step]
    simp [h1, h2, h3, h4]
  | case6 arg c h1 h2 h3 h4 rest ih =>
    rw [processArgs_cons, amended_step]
    simp [h1, h2, h3, h4, ih, strLength_eq_zero_iff]
  | case7 arg c h1 h2 h3 h4 inc rest hinc ih =>
    rw [processArgs_cons, amended_step]
    simp [h1, h2, h3, h4, hinc, ih, strLength_eq_zero_iff]
  | case8 arg args c h1 h2 h3 h4 ih =>
    rw [processArgs_cons, amended_step]
    simp [h1, h2, h3, h4, ih]

/-- Counterexample for claim C2 as stated: on the command line
`"" -Iinc` the tokenizer produces an empty first token (an empty quoted
argument); the claimed rules skip it and then record the include `inc`,
but the source's `while (arg = args.shift())` loop stops at the falsy
empty token, so nothing is recorded. -/
theorem claim_C2_counterexample :
    addCompilerArgumentsToConfig (some "\"\" -Iinc") "-include" (clangFreshDefaults FileType.CPP) ≠
      claimAddArgs (some "\"\" -Iinc") "-include" (clangFreshDefaults FileType.CPP) := by
  decide

/-- Claim C2 amended: the override parser behaves exactly as the claimed
left-to-right token rules, except that an empty token terminates
processing and a forced-include flag followed by an empty token records
nothing for it; the claimed concrete example is unaffected. -/
theorem claim_C2_amended_override_parsing :
    (∀ (cmdLine : Option String) (forceIncludeArg : String) (c : CompileConfig),
      addCompilerArgumentsToConfig cmdLine forceIncludeArg c = amendedAddArgs cmdLine forceIncludeArg c) ∧
    lookupD "FOO"
        (addCompilerArgumentsToConfig (some "-DFOO=bar -Ipath/to/inc -include force.h") "-include"
          (clangFreshDefaults FileType.CPP)).defines = some { key := "FOO", value := "bar" } ∧
    "path/to/inc" ∈
      (addCompilerArgumentsToConfig (some "-DFOO=bar -Ipath/to/inc -include force.h") "-include"
        (clangFreshDefaults FileType.CPP)).includes ∧
    "force.h" ∈
      (addCompilerArgumentsToConfig (some "-DFOO=bar -Ipath/to/inc -include force.h") "-include"
        (clangFreshDefaults FileType.CPP)).forcedIncludes := by
  refine ⟨?_, by decide, by decide, by decide⟩
  intro cmdLine f c
  match cmdLine with
  | none => rfl
  | some s =>
    by_cases hs : s = ""
    · subst hs
      show (addCompilerArgumentsToConfig (some "") f c) = amendedAddArgs (some "") f c
      simp only [addCompilerArgumentsToConfig, amendedAddArgs,
        show splitCmdLine "" = [] from rfl, if_pos rfl]
      rfl
    · simp only [addCompilerArgumentsToConfig, amendedAddArgs, if_neg hs]
      exact processArgs_eq_amended f (splitCmdLine s) c

/-! ### Claim C7 -/

theorem getIdx_append_lt {α : Type} :
    ∀ (l l' : List α) (i : Nat) (d : α), i < l.length → getIdx (l ++ l') i d = getIdx l i d := by
  intro l
  induction l with
  | nil => intro l' i d hi; exact absurd hi (Nat.not_lt_zero i)
  | cons a t ih =>
    intro l' i d hi
    cases i with
    | zero => rfl
    | succ n =>
      have hn : n < t.length := Nat.lt_of_succ_lt_succ hi
      show getIdx (t ++ l') n d = getIdx t n d
      exact ih l' n d hn

theorem getIdx_append_len {α : Type} :
    ∀ (l : List α) (x : α) (l' : List α) (d : α), getIdx (l ++ x :: l') l.length d = x := by
  intro l
  induction l with
  | nil => intro x l' d; rfl
  | cons a t ih => intro x l' d; exact ih x l' d

theorem getIdx_setIdx_ne {α : Type} :
    ∀ (l : List α) (i j : Nat) (a d : α), i ≠ j → getIdx (setIdx l i a) j d = getIdx l j d := by
  intro l
  induction l with
  | nil => intro i j a d _; rfl
  | cons b t ih =>
    intro i j a d hij
    cases i with
    | zero =>
      cases j with
      | zero => exact absurd rfl hij
      | succ n => rfl
    | succ m =>
      cases j with
      | zero => rfl
      | succ n =>
        have hmn : m ≠ n := fun h => hij (by rw [h])
        show getIdx (setIdx t m a) n d = getIdx t n d
        exact ih m n a d hmn

/-- Claim C7: `getDefaultConfiguration` returns a deep clone whose set and
map containers are freshly allocated copies: the clone's containers hold
the same contents as the originals, the scalar fields are copied, and
mutating the clone's includes set, defines map or forced-includes set
leaves the corresponding container of the original defaults unchanged.
The hypothesis says the original's three container references point into
the heap, which every live JS object reference does. -/
theorem claim_C7_clone_no_aliasing :
    ∀ (h : Heap) (c : ConfigRef), c.valid h →
      ((Compiler.getDefaultConfiguration h c).1.getSet
          (Compiler.getDefaultConfiguration h c).2.includesH = h.getSet c.includesH) ∧
      ((Compiler.getDefaultConfiguration h c).1.getMap
          (Compiler.getDefaultConfiguration h c).2.definesH = h.getMap c.definesH) ∧
      ((Compiler.getDefaultConfiguration h c).1.getSet
          (Compiler.getDefaultConfiguration h c).2.forcedIncludesH = h.getSet c.forcedIncludesH) ∧
      (Compiler.getDefaultConfiguration h c).2.intelliSenseMode = c.intelliSenseMode ∧
      (Compiler.getDefaultConfiguration h c).2.standard = c.standard ∧
      (∀ x, ((Compiler.getDefaultConfiguration h c).1.setInsert
          (Compiler.getDefaultConfiguration h c).2.includesH x).getSet c.includesH =
            h.getSet c.includesH) ∧
      (∀ k v, ((Compiler.getDefaultConfiguration h c).1.mapInsert
          (Compiler.getDefaultConfiguration h c).2.definesH k v).getMap c.definesH =
            h.getMap c.definesH) ∧
      (∀ x, ((Compiler.getDefaultConfiguration h c).1.setInsert
          (Compiler.getDefaultConfiguration h c).2.forcedIncludesH x).getSet c.forcedIncludesH =
            h.getSet c.forcedIncludesH) := by
  intro h c hv
  obtain ⟨hv1, hv2, hv3⟩ := hv
  have hred : Compiler.getDefaultConfiguration h c =
      ({ sets := (h.sets ++ [h.getSet c.includesH]) ++
            [Heap.getSet { sets := h.sets ++ [h.getSet c.includesH], maps := h.maps ++ [h.getMap c.definesH] } c.forcedIncludesH]
         maps := h.maps ++ [h.getMap c.definesH] },
       { includesH := h.sets.length
         definesH := h.maps.length
         forcedIncludesH := (h.sets ++ [h.getSet c.includesH]).length
         intelliSenseMode := c.intelliSenseMode
         standard := c.standard }) := rfl
  have hS3 : Heap.getSet { sets := h.sets ++ [h.getSet c.includesH], maps := h.maps ++ [h.getMap c.definesH] } c.forcedIncludesH =
      h.getSet c.forcedIncludesH := by
    show getIdx (h.sets ++ [h.getSet c.includesH]) c.forcedIncludesH [] = getIdx h.sets c.forcedIncludesH []
    exact getIdx_append_lt h.sets _ c.forcedIncludesH [] hv2
  have hlen1 : h.sets.length < (h.sets ++ [h.getSet c.includesH]).length := by
    simp
  refine ⟨?_, ?_, ?_, by rw [hred], by rw [hred], ?_, ?_, ?_⟩
  · rw [hred]
    show getIdx ((h.sets ++ [h.getSet c.includesH]) ++ [_]) h.sets.length [] = _
    rw [getIdx_append_lt _ _ h.sets.length [] hlen1]
    exact getIdx_append_len h.sets _ [] []
  · rw [hred]
    show getIdx (h.maps ++ [h.getMap c.definesH]) h.maps.length [] = _
    exact getIdx_append_len h.maps _ [] []
  · rw [hred]
    show getIdx ((h.sets ++ [h.getSet c.includesH]) ++ [_]) (h.sets ++ [h.getSet c.includesH]).length [] = _
    rw [getIdx_append_len (h.sets ++ [h.getSet c.includesH]) _ [] []]
    exact hS3
  · intro x
    rw [hred]
    show getIdx (setIdx _ h.sets.length _) c.includesH [] = _
    rw [getIdx_setIdx_ne _ h.sets.length c.includesH _ [] (Nat.ne_of_gt hv1)]
    show getIdx ((h.sets ++ [h.getSet c.includesH]) ++ [_]) c.includesH [] = _
    rw [getIdx_append_lt _ _ c.includesH [] (Nat.lt_of_lt_of_le hv1 (by simp))]
    exact getIdx_append_lt h.sets _ c.includesH [] hv1
  · intro k v
    rw [hred]
    show getIdx (setIdx _ h.maps.length _) c.definesH [] = _
    rw [getIdx_setIdx_ne _ h.maps.length c.definesH _ [] (Nat.ne_of_gt hv3)]
    show getIdx (h.maps ++ [h.getMap c.definesH]) c.definesH [] = _
    exact getIdx_append_lt h.maps _ c.definesH [] hv3
  · intro x
    rw [hred]
    show getIdx (setIdx _ (h.sets ++ [h.getSet c.includesH]).length _) c.forcedIncludesH [] = _
    rw [getIdx_setIdx_ne _ (h.sets ++ [h.getSet c.includesH]).length c.forcedIncludesH _ []
      (Nat.ne_of_gt (Nat.lt_of_lt_of_le hv2 (by simp)))]
    show getIdx ((h.sets ++ [h.getSet c.includesH]) ++ [_]) c.forcedIncludesH [] = _
    rw [getIdx_append_lt _ _ c.forcedIncludesH [] (Nat.lt_of_lt_of_le hv2 (by simp))]
    exact getIdx_append_lt h.sets _ c.forcedIncludesH [] hv2

/-- Witness for claim C7 at a concrete heap: mutating the clone's
includes set leaves the original includes set `["a"]` unchanged. -/
theorem claim_C7_witness :
    ((Compiler.getDefaultConfiguration witnessHeap witnessRef).1.setInsert
        (Compiler.getDefaultConfiguration witnessHeap witnessRef).2.includesH "z").getSet
      witnessRef.includesH = witnessHeap.getSet witnessRef.includesH :=
  (claim_C7_clone_no_aliasing witnessHeap witnessRef
    (by refine ⟨?_, ?_, ?_⟩ <;> decide)).2.2.2.2.2.1 "z"
